import Mathlib

/-!
Verification of the identity-resolution / disambiguation core of the
Asana task-manager server (`src/server.py`).

Python strings are modelled as lists of characters (`Str`); `s` converts a
Lean string literal to that representation.  Python dicts are modelled as
association lists in insertion order, with `dinsert` preserving a key's
position on overwrite (as CPython dicts do) — iteration order matters for
the fuzzy-matching fold.  ASCII data is assumed throughout (all inputs in
the repository's own examples are ASCII), so `lower()` is modelled on the
ASCII range.
-/

/-- A Python string, as a list of characters. -/
abbrev Str := List Char

/-- Convert a Lean string literal to the `Str` model. -/
def s (x : String) : Str := x.data

/-- Python `str.lower()` on one character (ASCII range). -/
def pyLowerChar (c : Char) : Char :=
  if 'A' ≤ c ∧ c ≤ 'Z' then Char.ofNat (c.toNat + 32) else c

/-- Python `str.lower()` (ASCII range). -/
def pyLower (x : Str) : Str := x.map pyLowerChar

/-- The characters Python's `str.strip()` / `str.split()` treat as whitespace
(ASCII fragment). -/
def isPySpace (c : Char) : Bool :=
  c = ' ' ∨ c = '\t' ∨ c = '\n' ∨ c = '\r' ∨ c = Char.ofNat 11 ∨ c = Char.ofNat 12

/-- Python `str.strip()`: drop leading and trailing whitespace. -/
def pyStrip (x : Str) : Str :=
  ((x.dropWhile isPySpace).reverse.dropWhile isPySpace).reverse

/-- Python `str.isdigit()` (ASCII fragment): nonempty and all characters `0`-`9`. -/
def pyIsDigit (x : Str) : Bool :=
  decide (x ≠ []) && x.all (fun c => '0' ≤ c ∧ c ≤ '9')

/-- Whether `a` is a prefix of `b` (Boolean). -/
def isPreOf : Str → Str → Bool
  | [], _ => true
  | _ :: _, [] => false
  | a :: as, b :: bs => a = b && isPreOf as bs

/-- Python's `a in b` on strings: `a` occurs contiguously inside `b`. -/
def isSubstrOf (a : Str) : Str → Bool
  | [] => decide (a = [])
  | c :: rest => isPreOf a (c :: rest) || isSubstrOf a rest

/-- Python `str.split()`: split on whitespace runs, dropping empty pieces. -/
def pySplit (x : Str) : List Str :=
  (x.splitOnP isPySpace).filter (· ≠ [])

/-- A Python dict from strings to strings: an association list in insertion
order.  Keys are unique in any dict built by `dinsert`. -/
abbrev Dict := List (Str × Str)

/-- The assignment `d[k] = v` of a CPython dict.  An existing key keeps its position
(its value is updated in place); a new key is appended at the end. -/
def dinsert (m : Dict) (k v : Str) : Dict :=
  if m.any (fun p => decide (p.1 = k)) then
    m.map (fun p => if p.1 = k then (k, v) else p)
  else m ++ [(k, v)]

/-- Lookup `d.get(k)` / `k in d`: first (only) binding of `k`. -/
def dlookup (m : Dict) (k : Str) : Option Str :=
  (m.find? (fun p => decide (p.1 = k))).map Prod.snd

/-- Assign every key of `ks`, left to right, the value `v`. -/
def dinsertAll (m : Dict) (ks : List Str) (v : Str) : Dict :=
  ks.foldl (fun m' k => dinsert m' k v) m

/-- A workspace member as returned by the directory collaborator
(`users_api.get_users_for_workspace`, fields `gid,name,email`). -/
structure User where
  gid : Str
  name : Str
  email : Str
deriving DecidableEq

/-- The lookup keys one member contributes to the user cache, in insertion
order, following `_fetch_workspace_users` (src/server.py lines 188-221):
strip `name`, `email`, `gid`; skip the member if `gid` is empty; otherwise
add the lower-cased name, then — exactly when the name splits into at least
two whitespace-separated parts — `"first lastInitial"` and the first part,
then the lower-cased email (when nonempty), then the gid itself. -/
def aliasKeys (u : User) : List Str :=
  let name := pyStrip u.name
  let email := pyStrip u.email
  let gid := pyStrip u.gid
  if gid = [] then []
  else
    (if name ≠ [] then
      [pyLower name] ++
        (if 2 ≤ (pySplit name).length then
          [pyLower ((pySplit name).headD [] ++ [' '] ++ ((pySplit name).getLastD []).take 1),
           pyLower ((pySplit name).headD [])]
        else [])
    else []) ++
    (if email ≠ [] then [pyLower email] else []) ++ [gid]

/-- Process one member: assign each of its alias keys, in order, the member's
gid (src/server.py lines 190-221). -/
def addUserAliases (m : Dict) (u : User) : Dict :=
  dinsertAll m (aliasKeys u) (pyStrip u.gid)

/-- Rebuild `_user_cache` from the fetched member list, in input order
(src/server.py lines 188-221); a later member's assignments overwrite an
earlier member's on key collision. -/
def buildUserCache (users : List User) : Dict :=
  users.foldl addUserAliases []

/-- One step of the fuzzy-matching loop of `resolve_assignee`
(src/server.py lines 263-279): skip entries whose key equals their value
(the gid-to-itself entries); otherwise, if the lowered reference is
contained in the key, score `len(ref)/len(key)`; else if the key is
contained in the lowered reference, score `len(key)/len(ref)`; keep the
incumbent unless the new score is strictly greater. -/
def fuzzyStep (aLow : Str) (best : Option Str × ℚ) (p : Str × Str) : Option Str × ℚ :=
  if p.1 = p.2 then best
  else if isSubstrOf aLow p.1 then
    (if mkRat aLow.length p.1.length > best.2 then
      (some p.2, mkRat aLow.length p.1.length)
    else best)
  else if isSubstrOf p.1 aLow then
    (if mkRat p.1.length aLow.length > best.2 then
      (some p.2, mkRat p.1.length aLow.length)
    else best)
  else best

/-- The fuzzy-matching loop: fold over the cache in iteration (= insertion)
order starting from `best_match = None`, `best_score = 0`. -/
def fuzzyBest (cache : Dict) (aLow : Str) : Option Str × ℚ :=
  cache.foldl (fuzzyStep aLow) (none, 0)

/-- The function `resolve_assignee` (src/server.py lines 233-286), with the cache snapshot
passed explicitly: empty input returns empty; an all-digit input longer than
10 characters is returned as-is before the cache is consulted; an exact
match of the lowered-and-stripped reference returns its gid; otherwise the
fuzzy loop runs and its best match is returned when it is a nonempty string
(Python truthiness of `best_match`) and its score exceeds `0.3`; otherwise
the original input is returned unchanged. -/
def resolveAssignee (cache : Dict) (assignee : Str) : Str :=
  if assignee = [] then []
  else if pyIsDigit assignee = true ∧ assignee.length > 10 then assignee
  else
    match dlookup cache (pyStrip (pyLower assignee)) with
    | some gid => gid
    | none =>
      match fuzzyBest cache (pyStrip (pyLower assignee)) with
      | (some g, bs) => if g ≠ [] ∧ bs > mkRat 3 10 then g else assignee
      | (none, _) => assignee

/-- A calendar date, as held by `datetime.date`. -/
structure Date where
  year : Nat
  month : Nat
  day : Nat
deriving DecidableEq

/-- Gregorian leap year. -/
def isLeap (y : Nat) : Bool := y % 4 = 0 ∧ (y % 100 ≠ 0 ∨ y % 400 = 0)

/-- Days in a month of the Gregorian calendar. -/
def daysInMonth (y m : Nat) : Nat :=
  if m = 2 then (if isLeap y then 29 else 28)
  else if m = 4 ∨ m = 6 ∨ m = 9 ∨ m = 11 then 30
  else 31

/-- The validity check `datetime(year, month, day)` performs
(`MINYEAR = 1`, `MAXYEAR = 9999`). -/
def validDate (y m d : Nat) : Bool :=
  1 ≤ y ∧ y ≤ 9999 ∧ 1 ≤ m ∧ m ≤ 12 ∧ 1 ≤ d ∧ d ≤ daysInMonth y m

def isDigitCh (c : Char) : Bool := '0' ≤ c ∧ c ≤ '9'

def digitVal (c : Char) : Nat := c.toNat - '0'.toNat

/-- A field of the `strptime` formats used by `_parse_due_date`. -/
inductive DTField
  | year4
  | year2
  | monthF
  | dayF
deriving DecidableEq

/-- The ways a field can match a prefix of the input, as `(value, rest)`
pairs, in the priority order of the CPython `_strptime` regular expression
alternations: `%Y` is exactly four digits; `%y` exactly two (value 0-68
meaning 2000-2068, 69-99 meaning 1969-1999); `%m` is a two-digit 01-12
(tried first) or a single digit 1-9; `%d` is a two-digit 01-31 (tried
first) or a single digit 1-9. -/
def fieldCands : DTField → Str → List (Nat × Str)
  | .year4, c1 :: c2 :: c3 :: c4 :: rest =>
    if isDigitCh c1 ∧ isDigitCh c2 ∧ isDigitCh c3 ∧ isDigitCh c4 then
      [(((digitVal c1 * 10 + digitVal c2) * 10 + digitVal c3) * 10 + digitVal c4, rest)]
    else []
  | .year4, _ => []
  | .year2, c1 :: c2 :: rest =>
    if isDigitCh c1 ∧ isDigitCh c2 then
      let v := digitVal c1 * 10 + digitVal c2
      [(if v ≤ 68 then 2000 + v else 1900 + v, rest)]
    else []
  | .year2, _ => []
  | .monthF, c1 :: c2 :: rest =>
    (if isDigitCh c1 ∧ isDigitCh c2 ∧ 1 ≤ digitVal c1 * 10 + digitVal c2 ∧
        digitVal c1 * 10 + digitVal c2 ≤ 12 then
      [(digitVal c1 * 10 + digitVal c2, rest)]
    else []) ++
    (if 1 ≤ digitVal c1 ∧ digitVal c1 ≤ 9 ∧ isDigitCh c1 then [(digitVal c1, c2 :: rest)] else [])
  | .monthF, [c1] =>
    if 1 ≤ digitVal c1 ∧ digitVal c1 ≤ 9 ∧ isDigitCh c1 then [(digitVal c1, [])] else []
  | .monthF, [] => []
  | .dayF, c1 :: c2 :: rest =>
    (if isDigitCh c1 ∧ isDigitCh c2 ∧ 1 ≤ digitVal c1 * 10 + digitVal c2 ∧
        digitVal c1 * 10 + digitVal c2 ≤ 31 then
      [(digitVal c1 * 10 + digitVal c2, rest)]
    else []) ++
    (if 1 ≤ digitVal c1 ∧ digitVal c1 ≤ 9 ∧ isDigitCh c1 then [(digitVal c1, c2 :: rest)] else [])
  | .dayF, [c1] =>
    if 1 ≤ digitVal c1 ∧ digitVal c1 ≤ 9 ∧ isDigitCh c1 then [(digitVal c1, [])] else []
  | .dayF, [] => []

/-- Try the candidate matches of a field in order, backtracking into the
continuation, as the regular-expression engine does. -/
def tryCands (cands : List (Nat × Str)) (k : Nat → Str → Option α) : Option α :=
  match cands with
  | [] => none
  | (v, rest) :: more =>
    match k v rest with
    | some r => some r
    | none => tryCands more k

/-- Consume one literal separator character. -/
def expectSep (sep : Char) : Str → Option Str
  | c :: rest => if c = sep then some rest else none
  | [] => none

/-- Match the whole input against `field1 sep field2 sep field3` (all seven
formats of `_parse_due_date` have this shape), requiring the input to be
fully consumed, and return the three field values. -/
def parse3 (f1 f2 f3 : DTField) (sep : Char) (x : Str) : Option (Nat × Nat × Nat) :=
  tryCands (fieldCands f1 x) (fun v1 r1 =>
    (expectSep sep r1).bind (fun r1' =>
      tryCands (fieldCands f2 r1') (fun v2 r2 =>
        (expectSep sep r2).bind (fun r2' =>
          tryCands (fieldCands f3 r2') (fun v3 r3 =>
            if r3 = [] then some (v1, v2, v3) else none)))))

/-- Python `datetime(y, m, d)`: `some` exactly when the triple is a valid date. -/
def mkDate (y m d : Nat) : Option Date :=
  if validDate y m d then some ⟨y, m, d⟩ else none

/-- The seven `strptime` format strings of `_parse_due_date`
(src/server.py line 369), in source order. -/
inductive DateFmt
  | ymd4dash   -- %Y-%m-%d
  | mdy4slash  -- %m/%d/%Y
  | mdy4dash   -- %m-%d-%Y
  | dmy4slash  -- %d/%m/%Y
  | ymd4slash  -- %Y/%m/%d
  | mdy2slash  -- %m/%d/%y
  | mdy2dash   -- %m-%d-%y
deriving DecidableEq

/-- Python `datetime.strptime(x, fmt)` for the seven formats. -/
def tryFormat (fmt : DateFmt) (x : Str) : Option Date :=
  match fmt with
  | .ymd4dash => (parse3 .year4 .monthF .dayF '-' x).bind (fun (y, m, d) => mkDate y m d)
  | .mdy4slash => (parse3 .monthF .dayF .year4 '/' x).bind (fun (m, d, y) => mkDate y m d)
  | .mdy4dash => (parse3 .monthF .dayF .year4 '-' x).bind (fun (m, d, y) => mkDate y m d)
  | .dmy4slash => (parse3 .dayF .monthF .year4 '/' x).bind (fun (d, m, y) => mkDate y m d)
  | .ymd4slash => (parse3 .year4 .monthF .dayF '/' x).bind (fun (y, m, d) => mkDate y m d)
  | .mdy2slash => (parse3 .monthF .dayF .year2 '/' x).bind (fun (m, d, y) => mkDate y m d)
  | .mdy2dash => (parse3 .monthF .dayF .year2 '-' x).bind (fun (m, d, y) => mkDate y m d)

/-- The fixed priority order in which `_parse_due_date` tries the absolute
formats (src/server.py line 369). -/
def dateFormats : List DateFmt :=
  [.ymd4dash, .mdy4slash, .mdy4dash, .dmy4slash, .ymd4slash, .mdy2slash, .mdy2dash]

/-- The format loop: the first format that parses wins. -/
def tryFormats : List DateFmt → Str → Option Date
  | [], _ => none
  | f :: rest, x =>
    match tryFormat f x with
    | some d => some d
    | none => tryFormats rest x

/-- Zero-pad the decimal digits of `n` to width `w`. -/
def padNum (w n : Nat) : Str :=
  let ds := Nat.toDigits 10 n
  List.replicate (w - ds.length) '0' ++ ds

/-- Formatting `.strftime('%Y-%m-%d')` (year zero-padded to four digits). -/
def formatDate (d : Date) : Str :=
  padNum 4 d.year ++ ['-'] ++ padNum 2 d.month ++ ['-'] ++ padNum 2 d.day

/-- The day after `d` (Gregorian). -/
def nextDay (d : Date) : Date :=
  if d.day < daysInMonth d.year d.month then ⟨d.year, d.month, d.day + 1⟩
  else if d.month < 12 then ⟨d.year, d.month + 1, 1⟩
  else ⟨d.year + 1, 1, 1⟩

/-- The day before `d` (Gregorian). -/
def prevDay (d : Date) : Date :=
  if 1 < d.day then ⟨d.year, d.month, d.day - 1⟩
  else if 1 < d.month then ⟨d.year, d.month - 1, daysInMonth d.year (d.month - 1)⟩
  else ⟨d.year - 1, 12, 31⟩

/-- Unchecked proleptic Gregorian day stepping, the calendar arithmetic
underlying `d + timedelta(days = n)`; CPython's range enforcement (the
`OverflowError`s) is layered on top in `addDaysChecked`.  (Stepping below
year 1 saturates in year 0 and can therefore never re-enter the
representable range, so the checked wrapper's range test is still exact.) -/
def addDays (d : Date) : Int → Date
  | .ofNat k => Nat.rec d (fun _ acc => nextDay acc) k
  | .negSucc k => Nat.rec d (fun _ acc => prevDay acc) (k + 1)

/-- The magnitude bound CPython enforces when constructing
`timedelta(days = n)`: `|n| ≤ 999999999`, else `OverflowError`. -/
def timedeltaDaysInRange (n : Int) : Bool :=
  -999999999 ≤ n ∧ n ≤ 999999999

/-- Whether a date lies within `datetime`'s representable range
(`MINYEAR = 1` to `MAXYEAR = 9999`); an addition leaving it raises
`OverflowError: date value out of range`. -/
def dateYearInRange (d : Date) : Bool :=
  1 ≤ d.year ∧ d.year ≤ 9999

/-- The expression `datetime.now() + timedelta(days = n)` with CPython's
failure modes: `none` models an `OverflowError`, raised either by the
`timedelta` constructor when `|n| > 999999999` or by the addition when the
resulting date leaves years 1-9999. -/
def addDaysChecked (d : Date) (n : Int) : Option Date :=
  if timedeltaDaysInRange n = true then
    if dateYearInRange (addDays d n) = true then some (addDays d n) else none
  else none

/-- One-or-more decimal digits with PEP 515 underscores: after the leading
digit, a single underscore may separate digit groups (`1_0`), but an
underscore may not lead, trail, or double up. -/
def pyIntDigitsRest : Str → Bool
  | [] => true
  | ['_'] => false
  | '_' :: c :: rest => isDigitCh c && pyIntDigitsRest rest
  | c :: rest => isDigitCh c && pyIntDigitsRest rest

/-- Whether a string is a valid unsigned decimal literal for Python
`int()`: a digit followed by digits and single separating underscores. -/
def pyIntDigits : Str → Bool
  | [] => false
  | c :: rest => isDigitCh c && pyIntDigitsRest rest

/-- The numeric value of a digit string, ignoring underscores. -/
def digitsVal (ds : Str) : Nat :=
  (ds.filter (· ≠ '_')).foldl (fun a c => a * 10 + digitVal c) 0

/-- Python `int(x)` for base 10: optional surrounding whitespace, an
optional sign, then one or more decimal digits with PEP 515 single
underscores allowed between digit groups (`int("1_0") = 10`); anything
else raises `ValueError`, modelled as `none`. -/
def pyIntParse (x : Str) : Option Int :=
  match pyStrip x with
  | '-' :: ds => if pyIntDigits ds = true then some (-(digitsVal ds : Nat)) else none
  | '+' :: ds => if pyIntDigits ds = true then some ((digitsVal ds : Nat)) else none
  | ds => if pyIntDigits ds = true then some ((digitsVal ds : Nat)) else none

/-- Python `.replace('days', '')`: delete every occurrence of `"days"`, scanning
left to right without overlap. -/
def removeAllDays : Str → Str
  | 'd' :: 'a' :: 'y' :: 's' :: rest => removeAllDays rest
  | c :: rest => c :: removeAllDays rest
  | [] => []

/-- Whether `a` is a suffix of `b` (Boolean), for `str.endswith`. -/
def isSuffixLst (a b : Str) : Bool := isPreOf a.reverse b.reverse

/-- The absolute-format stage of `_parse_due_date` (src/server.py lines
368-375): the first matching format's date, reformatted, or the input
unchanged. -/
def absoluteOr (due : Str) : Str :=
  match tryFormats dateFormats due with
  | some d => formatDate d
  | none => due

/-- The returning paths of `_parse_due_date` (src/server.py lines 347-375),
with the current date passed explicitly: empty input gives empty;
`today`/`now`/`tomorrow` (case-insensitive) and `...days` give relative
dates — the `days` branch deletes every occurrence of `"days"` from the
lowered input, strips it and parses it with `int()`, falling through to
the absolute formats when that fails; otherwise the absolute formats are
tried in order and an unmatched input is returned unchanged.  This is the
restriction to inputs on which the source returns: the date additions here
are the unchecked `addDays`, so the source's uncaught `OverflowError` path
is out of this function's scope.  The full model with that path made
explicit is `parseDueDateExc`; wherever `parseDueDateExc` returns a value
the two agree (`parseDueDateExc_agrees`). -/
def parseDueDate (today : Date) (due : Str) : Str :=
  if due = [] then []
  else
    let low := pyLower due
    if low = s "today" ∨ low = s "now" then formatDate today
    else if low = s "tomorrow" then formatDate (addDays today 1)
    else if isSuffixLst (s "days") low then
      match pyIntParse (pyStrip (removeAllDays low)) with
      | some n => formatDate (addDays today n)
      | none => absoluteOr due
    else absoluteOr due

/-- The function `_parse_due_date` (src/server.py lines 347-375) with its
exception path made explicit: `some` is the returned string and `none` an
uncaught `OverflowError` escaping the function — the `except ValueError`
on line 365 catches only the failed `int()` parse (which falls through to
the absolute formats), not the `OverflowError` of
`datetime.now() + timedelta(days=days)` on line 364 (or of `tomorrow` on
the last representable day, line 360), so those propagate to the caller. -/
def parseDueDateExc (today : Date) (due : Str) : Option Str :=
  if due = [] then some []
  else
    let low := pyLower due
    if low = s "today" ∨ low = s "now" then some (formatDate today)
    else if low = s "tomorrow" then (addDaysChecked today 1).map formatDate
    else if isSuffixLst (s "days") low then
      match pyIntParse (pyStrip (removeAllDays low)) with
      | some n => (addDaysChecked today n).map formatDate
      | none => some (absoluteOr due)
    else some (absoluteOr due)

/-- A task as returned by the search collaborator (`opt_fields` `name,gid`). -/
structure ATask where
  gid : Str
  name : Str
deriving DecidableEq

/-- Outcome of locating a task by free-text reference. -/
inductive LocateResult
  | found (gid : Str)
  | notFound
  | ambiguous (ms : List ATask)
  | missingProject
deriving DecidableEq

/-- The match test of `update_asana_task` (src/server.py lines 504-508) and
`create_subtask` (lines 1016-1020): the task's title equals the reference
case-insensitively, or (elif) the lowered reference is contained in the
lowered title.  The source has no title-contained-in-reference branch. -/
def taskMatches (ref : Str) (t : ATask) : Bool :=
  decide (pyLower t.name = pyLower ref) || isSubstrOf (pyLower ref) (pyLower t.name)

/-- The match list built from the search results, in search-result order;
each result is appended at most once per occurrence (if/elif). -/
def matchingTasks (ref : Str) (tasks : List ATask) : List ATask :=
  tasks.filter (taskMatches ref)

/-- The match rule as the specification states it (§4.3 step 3): equality,
or reference-in-title, or title-in-reference (case-insensitive).  Kept for
comparison with `taskMatches`, the rule the source implements. -/
def claimQualifies (ref : Str) (t : ATask) : Bool :=
  decide (pyLower t.name = pyLower ref) || isSubstrOf (pyLower ref) (pyLower t.name) ||
    isSubstrOf (pyLower t.name) (pyLower ref)

/-- The project-name-to-gid table `asana_projects` (src/server.py
lines 11-14). -/
def asanaProjects : Dict :=
  [(s "Analytics Team Status", s "1200797787407318"),
   (s "Engineering (Data Solutions)", s "1199170187515375")]

/-- Lookup `asana_projects.get(project, project)`. -/
def projectGidOf (proj : Str) : Str := (dlookup asanaProjects proj).getD proj

/-- The parameters of the search issued by `update_asana_task`
(src/server.py lines 490-494): the reference as text, scoped to the
project, restricted to incomplete tasks (`'completed': False`). -/
structure SearchQuery where
  text : Str
  projectsAny : Str
  completed : Bool
deriving DecidableEq

def searchQueryFor (ref proj : Str) : SearchQuery :=
  ⟨ref, projectGidOf proj, false⟩

/-- The task-locating phase of `update_asana_task` (src/server.py lines
472-517), with the search collaborator's results passed explicitly: an
all-digit reference longer than 10 characters is used as the gid directly;
a missing project is rejected; otherwise the match list decides the
outcome — none, exactly one, or several (of which the first five are
reported). -/
def locateTask (ref proj : Str) (searchResults : List ATask) : LocateResult :=
  if pyIsDigit ref = true ∧ ref.length > 10 then .found ref
  else if proj = [] then .missingProject
  else
    match matchingTasks ref searchResults with
    | [] => .notFound
    | [t] => .found t.gid
    | t :: t' :: rest => .ambiguous ((t :: t' :: rest).take 5)

/-- How the attempt to fetch the member directory can end: an exception
somewhere in the `try` block; a current-user record with no workspaces
(src/server.py lines 165-167, an error by the code's own diagnostic); or a
member list. -/
inductive FetchOutcome
  | failure
  | noWorkspaces
  | success (users : List User)

/-- The module-level cache state: `_user_cache` and `_cache_timestamp`. -/
structure CacheState where
  userCache : Dict
  timestamp : Option Nat

/-- The freshness test of `_fetch_workspace_users` (src/server.py line 155):
the timestamp is set (and truthy), younger than `_cache_duration = 3600`
seconds, and the cache is nonempty. -/
def cacheFresh (st : CacheState) (now : Nat) : Bool :=
  match st.timestamp with
  | none => false
  | some ts => ts ≠ 0 ∧ now - ts < 3600 ∧ st.userCache ≠ []

/-- The function `_fetch_workspace_users` (src/server.py lines 146-231) as a state
transformer over the module state, the clock, and the collaborator's
outcome.  Returns the dict the Python function returns, plus the state
afterwards.  A fresh cache is returned untouched; a no-workspace reply
returns the empty dict and leaves the state alone; an exception returns the
last good cache when it is nonempty and the empty dict otherwise; a member
list rebuilds the cache and stamps it. -/
def fetchWorkspaceUsers (st : CacheState) (now : Nat) (outcome : FetchOutcome) :
    Dict × CacheState :=
  if cacheFresh st now then (st.userCache, st)
  else
    match outcome with
    | .noWorkspaces => ([], st)
    | .failure => (if st.userCache ≠ [] then st.userCache else [], st)
    | .success users =>
      let c := buildUserCache users
      (c, ⟨c, some now⟩)

/-- The candidate list of the fuzzy match, as the specification scores it
(§4.2 step 4): every cache entry whose key differs from its value and where
one of the two strings contains the other contributes its gid with score
`min(len a, len b) / max(len a, len b)`; order is cache iteration order. -/
def specCandidates (cache : Dict) (aLow : Str) : List (Str × ℚ) :=
  (cache.filter (fun p =>
      decide (p.1 ≠ p.2) && (isSubstrOf aLow p.1 || isSubstrOf p.1 aLow))).map
    (fun p => (p.2, mkRat (min aLow.length p.1.length) (max aLow.length p.1.length)))

/-- The first element of maximal score (earlier elements win ties). -/
def firstArgmax : List (Str × ℚ) → Option (Str × ℚ)
  | [] => none
  | p :: rest =>
    match firstArgmax rest with
    | none => some p
    | some q => if q.2 > p.2 then some q else some p

/-- The maximum candidate score, `0` when there are no candidates (the
loop's starting `best_score`). -/
def maxScore (l : List (Str × ℚ)) : ℚ :=
  l.foldl (fun m p => max m p.2) 0

/-- One step of the candidate fold, on scored candidates. -/
def bestStep (best : Option Str × ℚ) (p : Str × ℚ) : Option Str × ℚ :=
  if p.2 > best.2 then (some p.1, p.2) else best

/-! ## Supporting lemmas -/

theorem findPred_comp (k k' v : Str) :
    ((fun p => decide (p.1 = k)) ∘ (fun p : Str × Str => if p.1 = k' then (k', v) else p))
      = (fun p : Str × Str => decide (p.1 = k)) := by
  funext p
  by_cases h : p.1 = k' <;> simp [Function.comp, h]

theorem dlookup_dinsert (m : Dict) (k' v k : Str) :
    dlookup (dinsert m k' v) k = if k = k' then some v else dlookup m k := by
  unfold dinsert dlookup
  by_cases hany : m.any (fun p => decide (p.1 = k')) = true
  · rw [if_pos hany, List.find?_map, findPred_comp]
    by_cases hk : k = k'
    · rw [if_pos hk]
      subst hk
      rw [List.any_eq_true] at hany
      obtain ⟨x, hxm, hx⟩ := hany
      simp only [decide_eq_true_eq] at hx
      rcases hfind : m.find? (fun p => decide (p.1 = k)) with _ | q
      · rw [List.find?_eq_none] at hfind
        exact absurd (by simpa using hx) (hfind x hxm)
      · have hq := List.find?_some hfind
        simp only [decide_eq_true_eq] at hq
        rw [hfind]
        simp [hq]
    · rw [if_neg hk]
      rcases hfind : m.find? (fun p => decide (p.1 = k)) with _ | q
      · rw [hfind]
        rfl
      · have hq := List.find?_some hfind
        simp only [decide_eq_true_eq] at hq
        have hqk : q.1 ≠ k' := fun h => hk (hq ▸ h)
        rw [hfind]
        simp [hqk]
  · rw [if_neg hany, List.find?_append]
    by_cases hk : k = k'
    · subst hk
      have hnone : m.find? (fun p => decide (p.1 = k)) = none := by
        rw [List.find?_eq_none]
        intro x hxm
        simp only [decide_eq_true_eq]
        intro hx
        exact hany (List.any_eq_true.mpr ⟨x, hxm, by simp [hx]⟩)
      simp [hnone, List.find?]
    · have h2 : List.find? (fun p => decide (p.1 = k)) [(k', v)] = none := by
        simp only [List.find?]
        have : (decide ((k', v).1 = k)) = false := by
          simp
          exact fun h => hk h.symm
        rw [this]
      rw [h2, if_neg hk, Option.or_none]

theorem dlookup_dinsertAll (ks : List Str) (m : Dict) (v k : Str) :
    dlookup (dinsertAll m ks v) k = if k ∈ ks then some v else dlookup m k := by
  induction ks generalizing m with
  | nil => simp [dinsertAll]
  | cons k' ks ih =>
    show dlookup (dinsertAll (dinsert m k' v) ks v) k = _
    rw [ih, dlookup_dinsert]
    by_cases h1 : k ∈ ks <;> by_cases h2 : k = k' <;> simp [h1, h2]

theorem isPreOf_length_le (a : Str) : ∀ b, isPreOf a b = true → a.length ≤ b.length := by
  induction a with
  | nil => intro b _; simp
  | cons c as ih =>
    intro b h
    cases b with
    | nil => simp [isPreOf] at h
    | cons d bs =>
      simp only [isPreOf, Bool.and_eq_true] at h
      simpa using ih bs h.2

theorem isSubstrOf_length_le (a : Str) : ∀ b, isSubstrOf a b = true → a.length ≤ b.length := by
  intro b
  induction b with
  | nil =>
    intro h
    simp only [isSubstrOf, decide_eq_true_eq] at h
    simp [h]
  | cons c bs ih =>
    intro h
    simp only [isSubstrOf, Bool.or_eq_true] at h
    rcases h with h | h
    · exact isPreOf_length_le a _ h
    · exact le_trans (ih h) (by simp)

theorem score_substr_left (aLow k : Str) (h : isSubstrOf aLow k = true) :
    mkRat aLow.length k.length = mkRat (min aLow.length k.length) (max aLow.length k.length) := by
  have hl := isSubstrOf_length_le aLow k h
  have hl' : (aLow.length : ℤ) ≤ (k.length : ℤ) := by exact_mod_cast hl
  rw [min_eq_left hl', max_eq_right hl]

theorem score_substr_right (aLow k : Str) (h : isSubstrOf k aLow = true) :
    mkRat k.length aLow.length = mkRat (min aLow.length k.length) (max aLow.length k.length) := by
  have hl := isSubstrOf_length_le k aLow h
  have hl' : (k.length : ℤ) ≤ (aLow.length : ℤ) := by exact_mod_cast hl
  rw [min_eq_right hl', max_eq_left hl]

theorem foldl_fuzzyStep_eq (aLow : Str) (cache : Dict) :
    ∀ init, cache.foldl (fuzzyStep aLow) init = (specCandidates cache aLow).foldl bestStep init := by
  induction cache with
  | nil => intro _; rfl
  | cons p rest ih =>
    intro init
    rw [List.foldl_cons, ih]
    unfold specCandidates
    rw [List.filter_cons]
    by_cases h1 : p.1 = p.2
    · have hpred : (decide (p.1 ≠ p.2) && (isSubstrOf aLow p.1 || isSubstrOf p.1 aLow)) = false := by
        rw [h1]
        simp
      rw [hpred, if_neg Bool.false_ne_true]
      have hf : fuzzyStep aLow init p = init := by simp [fuzzyStep, h1]
      rw [hf]
    · by_cases h2 : isSubstrOf aLow p.1 = true
      · have hpred : (decide (p.1 ≠ p.2) && (isSubstrOf aLow p.1 || isSubstrOf p.1 aLow)) = true := by
          simp [h1, h2]
        rw [hpred, if_pos rfl, List.map_cons, List.foldl_cons]
        have hf : fuzzyStep aLow init p
            = bestStep init (p.2, mkRat (min aLow.length p.1.length) (max aLow.length p.1.length)) := by
          rw [fuzzyStep, bestStep, if_neg h1, if_pos h2, ← score_substr_left aLow p.1 h2]
        rw [hf]
      · by_cases h3 : isSubstrOf p.1 aLow = true
        · have hpred : (decide (p.1 ≠ p.2) && (isSubstrOf aLow p.1 || isSubstrOf p.1 aLow)) = true := by
            simp [h1, h3]
          rw [hpred, if_pos rfl, List.map_cons, List.foldl_cons]
          have hf : fuzzyStep aLow init p
              = bestStep init (p.2, mkRat (min aLow.length p.1.length) (max aLow.length p.1.length)) := by
            rw [fuzzyStep, bestStep, if_neg h1, if_neg h2, if_pos h3,
              ← score_substr_right aLow p.1 h3]
          rw [hf]
        · simp only [Bool.not_eq_true] at h2 h3
          have hpred : (decide (p.1 ≠ p.2) && (isSubstrOf aLow p.1 || isSubstrOf p.1 aLow)) = false := by
            simp [h1, h2, h3]
          rw [hpred, if_neg Bool.false_ne_true]
          have hf : fuzzyStep aLow init p = init := by
            simp [fuzzyStep, h1, h2, h3]
          rw [hf]

theorem firstArgmax_eq_none (l : List (Str × ℚ)) : firstArgmax l = none ↔ l = [] := by
  cases l with
  | nil => simp [firstArgmax]
  | cons p rest =>
    constructor
    · intro h
      rw [firstArgmax] at h
      rcases hq : firstArgmax rest with _ | q
      · rw [hq] at h
        exact Option.noConfusion (show some p = none from h)
      · rw [hq] at h
        have h2 : (if q.2 > p.2 then some q else some p) = none := h
        by_cases hcmp : q.2 > p.2
        · rw [if_pos hcmp] at h2
          exact Option.noConfusion h2
        · rw [if_neg hcmp] at h2
          exact Option.noConfusion h2
    · intro h
      cases h

theorem firstArgmax_mem : ∀ {l : List (Str × ℚ)} {q}, firstArgmax l = some q → q ∈ l := by
  intro l
  induction l with
  | nil => intro q h; simp [firstArgmax] at h
  | cons p rest ih =>
    intro q h
    rw [firstArgmax] at h
    rcases hq : firstArgmax rest with _ | q'
    · rw [hq] at h
      have h2 : some p = some q := h
      cases h2
      exact List.mem_cons_self _ _
    · rw [hq] at h
      have h2 : (if q'.2 > p.2 then some q' else some p) = some q := h
      by_cases hcmp : q'.2 > p.2
      · rw [if_pos hcmp] at h2
        cases h2
        exact List.mem_cons_of_mem _ (ih hq)
      · rw [if_neg hcmp] at h2
        cases h2
        exact List.mem_cons_self _ _

theorem firstArgmax_ge :
    ∀ {l : List (Str × ℚ)} {q}, firstArgmax l = some q → ∀ r ∈ l, r.2 ≤ q.2 := by
  intro l
  induction l with
  | nil => intro q h; simp [firstArgmax] at h
  | cons p rest ih =>
    intro q h r hr
    rw [firstArgmax] at h
    rcases hq : firstArgmax rest with _ | q'
    · rw [hq] at h
      have h2 : some p = some q := h
      cases h2
      have hrest := (firstArgmax_eq_none rest).mp hq
      subst hrest
      rcases List.mem_singleton.mp hr with rfl
      exact le_refl _
    · rw [hq] at h
      have h2 : (if q'.2 > p.2 then some q' else some p) = some q := h
      rcases List.mem_cons.mp hr with hrp | hr'
      · subst hrp
        by_cases hcmp : q'.2 > r.2
        · rw [if_pos hcmp] at h2
          cases h2
          exact le_of_lt hcmp
        · rw [if_neg hcmp] at h2
          cases h2
          exact le_refl _
      · by_cases hcmp : q'.2 > p.2
        · rw [if_pos hcmp] at h2
          cases h2
          exact ih hq r hr'
        · rw [if_neg hcmp] at h2
          cases h2
          exact le_trans (ih hq r hr') (not_lt.mp hcmp)

theorem foldl_bestStep_eq (l : List (Str × ℚ)) :
    ∀ b c, l.foldl bestStep (b, c) =
      (firstArgmax l).elim (b, c) (fun q => if q.2 > c then (some q.1, q.2) else (b, c)) := by
  induction l with
  | nil => intro b c; rfl
  | cons p rest ih =>
    intro b c
    rw [List.foldl_cons]
    rcases hq : firstArgmax rest with _ | q
    · have hrest := (firstArgmax_eq_none rest).mp hq
      subst hrest
      rfl
    · have hfa : firstArgmax (p :: rest) = if q.2 > p.2 then some q else some p := by
        rw [firstArgmax, hq]
      rw [hfa]
      show List.foldl bestStep (bestStep (b, c) p) rest = _
      by_cases h : p.2 > c
      · have hb : bestStep (b, c) p = (some p.1, p.2) := by simp [bestStep, h]
        rw [hb, ih (some p.1) p.2, hq, Option.elim_some]
        by_cases h2 : q.2 > p.2
        · rw [if_pos h2, if_pos h2, Option.elim_some, if_pos (lt_trans h h2)]
        · rw [if_neg h2, if_neg h2, Option.elim_some, if_pos h]
      · have hb : bestStep (b, c) p = (b, c) := by simp [bestStep, h]
        rw [hb, ih b c, hq, Option.elim_some]
        by_cases h2 : q.2 > p.2
        · rw [if_pos h2, Option.elim_some]
        · rw [if_neg h2, Option.elim_some,
            if_neg (show ¬q.2 > c from fun hqc => h (lt_of_lt_of_le hqc (not_lt.mp h2))),
            if_neg h]

theorem foldl_max_eq (l : List (Str × ℚ)) :
    ∀ c, l.foldl (fun m p => max m p.2) c = (firstArgmax l).elim c (fun q => max c q.2) := by
  induction l with
  | nil => intro _; rfl
  | cons p rest ih =>
    intro c
    rw [List.foldl_cons, ih (max c p.2)]
    rcases hq : firstArgmax rest with _ | q
    · have hrest := (firstArgmax_eq_none rest).mp hq
      subst hrest
      rfl
    · have hfa : firstArgmax (p :: rest) = if q.2 > p.2 then some q else some p := by
        rw [firstArgmax, hq]
      rw [hfa, Option.elim_some]
      by_cases h2 : q.2 > p.2
      · rw [if_pos h2, Option.elim_some, max_assoc, max_eq_right (le_of_lt h2)]
      · rw [if_neg h2, Option.elim_some, max_assoc, max_eq_left (not_lt.mp h2)]

theorem mem_specCandidates {cache : Dict} {aLow : Str} {q : Str × ℚ}
    (h : q ∈ specCandidates cache aLow) : ∃ p ∈ cache, q.1 = p.2 := by
  unfold specCandidates at h
  obtain ⟨p, hp, hq⟩ := List.mem_map.mp h
  exact ⟨p, (List.mem_filter.mp hp).1, by rw [← hq]⟩

theorem fuzzyBest_eq (cache : Dict) (aLow : Str) :
    fuzzyBest cache aLow =
      (firstArgmax (specCandidates cache aLow)).elim ((none : Option Str), (0 : ℚ))
        (fun q => if q.2 > 0 then (some q.1, q.2) else (none, 0)) := by
  unfold fuzzyBest
  rw [foldl_fuzzyStep_eq aLow cache ((none : Option Str), (0 : ℚ)),
    foldl_bestStep_eq (specCandidates cache aLow) none 0]

theorem mkRat_three_tenths_pos : (0 : ℚ) < mkRat 3 10 := by decide

/-- On the fuzzy path (nonempty, non-gid-looking input with no exact match),
`resolve_assignee` returns the first maximal-score candidate when it is a
nonempty string of score exceeding `0.3`, and the input otherwise. -/
theorem resolveAssignee_fuzzy (cache : Dict) (a : Str)
    (ha : a ≠ []) (hd : ¬(pyIsDigit a = true ∧ a.length > 10))
    (he : dlookup cache (pyStrip (pyLower a)) = none) :
    resolveAssignee cache a =
      (firstArgmax (specCandidates cache (pyStrip (pyLower a)))).elim a
        (fun q => if q.1 ≠ [] ∧ q.2 > mkRat 3 10 then q.1 else a) := by
  unfold resolveAssignee
  rw [if_neg ha, if_neg hd, he, fuzzyBest_eq]
  rcases hq : firstArgmax (specCandidates cache (pyStrip (pyLower a))) with _ | q
  · rfl
  · rw [Option.elim_some, Option.elim_some]
    by_cases hpos : q.2 > 0
    · rw [if_pos hpos]
    · rw [if_neg hpos,
        if_neg (show ¬(q.1 ≠ [] ∧ q.2 > mkRat 3 10) from
          fun hc => hpos (lt_trans mkRat_three_tenths_pos hc.2))]

/-! ## Claim theorems -/

/-- C2, amended (and its machinery): on a non-gid-looking input with no
exact alias match, the resolver scans every cache entry except the
key-equal-to-value (identifier-to-itself) ones; an entry contributes a
candidate exactly when one of the two strings is a substring of the other,
scored `min(len a, len b) / max(len a, len b)` (this is `specCandidates`);
a candidate of maximal score is returned when that maximum exceeds `0.3`,
and otherwise the original input is returned unchanged.  The amendment
forced by `claim2_counterexample`: the reference is lower-cased AND
whitespace-stripped before both the exact and the fuzzy match (the claim
said only lower-cased). -/
theorem claim2_fuzzy_scoring (cache : Dict) (a : Str)
    (ha : a ≠ []) (hd : ¬(pyIsDigit a = true ∧ a.length > 10))
    (he : dlookup cache (pyStrip (pyLower a)) = none)
    (hv : ∀ p ∈ cache, p.2 ≠ []) :
    (mkRat 3 10 < maxScore (specCandidates cache (pyStrip (pyLower a))) →
      ∃ q ∈ specCandidates cache (pyStrip (pyLower a)),
        q.2 = maxScore (specCandidates cache (pyStrip (pyLower a))) ∧
        resolveAssignee cache a = q.1) ∧
    (maxScore (specCandidates cache (pyStrip (pyLower a))) ≤ mkRat 3 10 →
      resolveAssignee cache a = a) := by
  rw [resolveAssignee_fuzzy cache a ha hd he]
  have hmax : maxScore (specCandidates cache (pyStrip (pyLower a)))
      = (firstArgmax (specCandidates cache (pyStrip (pyLower a)))).elim (0 : ℚ)
          (fun q => max 0 q.2) := foldl_max_eq _ 0
  rw [hmax]
  rcases hq : firstArgmax (specCandidates cache (pyStrip (pyLower a))) with _ | q
  · rw [Option.elim_none, Option.elim_none]
    constructor
    · intro hgt
      exact absurd hgt (by decide)
    · intro _
      rfl
  · rw [Option.elim_some, Option.elim_some]
    have hne : q.1 ≠ [] := by
      obtain ⟨p, hpm, hp1⟩ := mem_specCandidates (firstArgmax_mem hq)
      rw [hp1]
      exact hv p hpm
    constructor
    · intro hgt
      rcases le_or_lt q.2 0 with h0 | h0
      · rw [max_eq_left h0] at hgt
        exact absurd hgt (by decide)
      · rw [max_eq_right (le_of_lt h0)] at hgt
        refine ⟨q, firstArgmax_mem hq, ?_, ?_⟩
        · rw [max_eq_right (le_of_lt h0)]
        · rw [if_pos ⟨hne, hgt⟩]
    · intro hle
      have hq2 : ¬q.2 > mkRat 3 10 :=
        fun hgt => absurd (lt_of_lt_of_le hgt (le_trans (le_max_right 0 q.2) hle)) (lt_irrefl _)
      rw [if_neg (fun hc => hq2 hc.2)]

/-- Witness for C2's theorem at a concrete snapshot and input. -/
theorem claim2_fuzzy_scoring_witness :
    mkRat 3 10 < maxScore (specCandidates (buildUserCache [⟨s "111", s "Jane Doe", s "jane@x.com"⟩])
        (pyStrip (pyLower (s "ane do")))) ∧
    ∃ q ∈ specCandidates (buildUserCache [⟨s "111", s "Jane Doe", s "jane@x.com"⟩])
        (pyStrip (pyLower (s "ane do"))),
      q.2 = maxScore (specCandidates (buildUserCache [⟨s "111", s "Jane Doe", s "jane@x.com"⟩])
          (pyStrip (pyLower (s "ane do")))) ∧
      resolveAssignee (buildUserCache [⟨s "111", s "Jane Doe", s "jane@x.com"⟩]) (s "ane do") = q.1 :=
  ⟨by decide,
    (claim2_fuzzy_scoring (buildUserCache [⟨s "111", s "Jane Doe", s "jane@x.com"⟩]) (s "ane do")
      (by decide) (by decide) (by decide) (by decide)).1 (by decide)⟩

/-- C2, counterexample to the claim as stated: with the single member
`Bob / b@q.co / 111`, the input `"    bob    "` (eleven characters) is not
all-digit, its lower-casing is no alias key, and every claim-side candidate
scores at most `3/11 ≤ 0.3` (lower-casing alone leaves the whitespace in
place), so the claim requires the input back unchanged — but the code
strips the reference, finds the exact key `"bob"`, and returns `"111"`. -/
theorem claim2_counterexample :
    resolveAssignee (buildUserCache [⟨s "111", s "Bob", s "b@q.co"⟩]) (s "    bob    ") = s "111" ∧
    pyIsDigit (s "    bob    ") = false ∧
    dlookup (buildUserCache [⟨s "111", s "Bob", s "b@q.co"⟩]) (pyLower (s "    bob    ")) = none ∧
    maxScore (specCandidates (buildUserCache [⟨s "111", s "Bob", s "b@q.co"⟩])
        (pyLower (s "    bob    "))) ≤ mkRat 3 10 ∧
    s "111" ≠ s "    bob    " := by decide

/-- C9, amended: a nonempty reference that is not an all-digit string longer
than 10 characters and whose lowered-and-stripped form is an alias key
resolves deterministically to the mapped identifier, without fuzzy matching.
The amendment forced by `claim9_counterexample`: all-digit references longer
than 10 characters are returned unchanged even when they are alias keys,
because the gid check precedes the cache lookup. -/
theorem claim9_exact_match (cache : Dict) (a g : Str)
    (ha : a ≠ []) (hd : ¬(pyIsDigit a = true ∧ a.length > 10))
    (he : dlookup cache (pyStrip (pyLower a)) = some g) :
    resolveAssignee cache a = g := by
  unfold resolveAssignee
  rw [if_neg ha, if_neg hd, he]

/-- Witness for C9's theorem. -/
theorem claim9_exact_match_witness :
    resolveAssignee [(s "jane", s "111")] (s "Jane") = s "111" :=
  claim9_exact_match [(s "jane", s "111")] (s "Jane") (s "111")
    (by decide) (by decide) (by decide)

/-- C9, counterexample to the claim as stated: a member whose display name
is the 11-digit string `12345678901` and whose gid is `999` produces the
alias key `12345678901 ↦ 999`; resolving `"12345678901"` hits the
gid-looking early return and yields the reference itself, not the mapped
identifier `999`. -/
theorem claim9_counterexample :
    dlookup (buildUserCache [⟨s "999", s "12345678901", s ""⟩]) (pyLower (s "12345678901"))
        = some (s "999") ∧
    resolveAssignee (buildUserCache [⟨s "999", s "12345678901", s ""⟩]) (s "12345678901")
        = s "12345678901" ∧
    s "12345678901" ≠ s "999" := by decide

/-- C10: the fuzzy loop keeps its incumbent on ties (strict greater-than),
so when the candidate list has a first element of maximal score above `0.3`,
exactly that candidate's identifier is returned (`firstArgmax` picks the
earliest maximal element in cache iteration order), and every candidate
scores at most it; the outcome is a function of the snapshot and input. -/
theorem claim10_tie_break (cache : Dict) (a : Str) (q : Str × ℚ)
    (ha : a ≠ []) (hd : ¬(pyIsDigit a = true ∧ a.length > 10))
    (he : dlookup cache (pyStrip (pyLower a)) = none)
    (hv : ∀ p ∈ cache, p.2 ≠ [])
    (hq : firstArgmax (specCandidates cache (pyStrip (pyLower a))) = some q)
    (hs : mkRat 3 10 < q.2) :
    resolveAssignee cache a = q.1 ∧
    ∀ r ∈ specCandidates cache (pyStrip (pyLower a)), r.2 ≤ q.2 := by
  constructor
  · rw [resolveAssignee_fuzzy cache a ha hd he, hq, Option.elim_some]
    have hne : q.1 ≠ [] := by
      obtain ⟨p, hpm, hp1⟩ := mem_specCandidates (firstArgmax_mem hq)
      rw [hp1]
      exact hv p hpm
    rw [if_pos ⟨hne, hs⟩]
  · exact firstArgmax_ge hq

/-- Witness for C10's theorem: two candidates tie at score `1/2`; the one
appearing first in cache order wins. -/
theorem claim10_tie_break_witness :
    specCandidates [(s "ab", s "111"), (s "cd", s "222")] (pyStrip (pyLower (s "abcd")))
        = [(s "111", mkRat 2 4), (s "222", mkRat 2 4)] ∧
    resolveAssignee [(s "ab", s "111"), (s "cd", s "222")] (s "abcd") = s "111" :=
  ⟨by decide,
    (claim10_tie_break [(s "ab", s "111"), (s "cd", s "222")] (s "abcd") (s "111", mkRat 2 4)
      (by decide) (by decide) (by decide) (by decide) (by decide) (by decide)).1⟩

/-- C1, amended: a task from the search results enters the match list if
and only if its title equals the reference case-insensitively or the
reference is a substring of the title (case-insensitive) — the source has
no title-substring-of-reference branch — and each qualifying task appears
in the match list exactly as often as it appears in the search results
(once per occurrence), in search-result order.  The same loop appears
verbatim in `update_asana_task` and `create_subtask`. -/
theorem claim1_match_rule (ref : Str) (results : List ATask) (t : ATask) :
    (t ∈ matchingTasks ref results ↔
      t ∈ results ∧
        (pyLower t.name = pyLower ref ∨ isSubstrOf (pyLower ref) (pyLower t.name) = true)) ∧
    List.count t (matchingTasks ref results) =
      (if pyLower t.name = pyLower ref ∨ isSubstrOf (pyLower ref) (pyLower t.name) = true
        then List.count t results else 0) := by
  constructor
  · rw [matchingTasks, List.mem_filter, taskMatches]
    simp [Bool.or_eq_true, decide_eq_true_eq]
  · by_cases h : pyLower t.name = pyLower ref ∨ isSubstrOf (pyLower ref) (pyLower t.name) = true
    · rw [if_pos h, matchingTasks]
      exact List.count_filter (by simp [taskMatches, Bool.or_eq_true, decide_eq_true_eq, h])
    · rw [if_neg h, List.count_eq_zero]
      intro hmem
      rw [matchingTasks, List.mem_filter, taskMatches] at hmem
      exact h (by simpa [Bool.or_eq_true, decide_eq_true_eq] using hmem.2)

/-- C1, counterexample to the claim as stated: the task titled
`Write report` satisfies the specification's third disjunct for the
reference `Write report now` (the title is a substring of the reference),
yet the code's match list built from it is empty. -/
theorem claim1_counterexample :
    claimQualifies (s "Write report now") ⟨s "1", s "Write report"⟩ = true ∧
    matchingTasks (s "Write report now") [⟨s "1", s "Write report"⟩] = [] ∧
    (⟨s "1", s "Write report"⟩ : ATask) ∉
      matchingTasks (s "Write report now") [⟨s "1", s "Write report"⟩] := by decide

/-- C5: an all-digit reference longer than 10 characters is returned
unchanged by identity resolution for every cache snapshot (the cache is
never consulted), and task location returns it as `found` for every project
and every search-result list (no search is needed). -/
theorem claim5_gid_passthrough (a : Str)
    (h1 : pyIsDigit a = true) (h2 : a.length > 10) :
    (∀ cache, resolveAssignee cache a = a) ∧
    (∀ proj results, locateTask a proj results = .found a) := by
  have ha : a ≠ [] := by
    intro h
    rw [h] at h1
    exact absurd h1 (by decide)
  constructor
  · intro cache
    unfold resolveAssignee
    rw [if_neg ha, if_pos ⟨h1, h2⟩]
  · intro proj results
    unfold locateTask
    rw [if_pos ⟨h1, h2⟩]

/-- Witness for C5's theorem at the 11-digit reference `12345678901`. -/
theorem claim5_gid_passthrough_witness :
    resolveAssignee [(s "12345678901", s "999")] (s "12345678901") = s "12345678901" ∧
    locateTask (s "12345678901") (s "P") [⟨s "1", s "12345678901"⟩] = .found (s "12345678901") :=
  ⟨(claim5_gid_passthrough (s "12345678901") (by decide) (by decide)).1 _,
   (claim5_gid_passthrough (s "12345678901") (by decide) (by decide)).2 _ _⟩

/-- C7: for a non-gid-looking reference with a project given, the issued
search is restricted to incomplete tasks (`completed = false`), and the
outcome is `notFound` on an empty match list, `found` with the single
task's gid on a singleton, and `ambiguous` carrying the first 5 matches in
search-result order (never more) on two or more. -/
theorem claim7_locate_outcomes (ref proj : Str) (results : List ATask)
    (hg : ¬(pyIsDigit ref = true ∧ ref.length > 10)) (hp : proj ≠ []) :
    (searchQueryFor ref proj).completed = false ∧
    (matchingTasks ref results = [] → locateTask ref proj results = .notFound) ∧
    (∀ t, matchingTasks ref results = [t] → locateTask ref proj results = .found t.gid) ∧
    (1 < (matchingTasks ref results).length →
      locateTask ref proj results = .ambiguous ((matchingTasks ref results).take 5) ∧
      ((matchingTasks ref results).take 5).length ≤ 5) := by
  refine ⟨rfl, ?_, ?_, ?_⟩
  · intro hm
    unfold locateTask
    rw [if_neg hg, if_neg hp, hm]
  · intro t hm
    unfold locateTask
    rw [if_neg hg, if_neg hp, hm]
  · intro hlen
    constructor
    · unfold locateTask
      rw [if_neg hg, if_neg hp]
      rcases hm : matchingTasks ref results with _ | ⟨t, _ | ⟨t', rest⟩⟩
      · rw [hm] at hlen
        simp at hlen
      · rw [hm] at hlen
        simp at hlen
      · rfl
    · exact le_trans (List.length_take_le 5 _) (le_refl 5)

/-- Witness for C7's theorem: two incomplete tasks both matching `write`
yield `ambiguous` with both, in order. -/
theorem claim7_locate_outcomes_witness :
    locateTask (s "write") (s "Analytics Team Status")
        [⟨s "1", s "Write report"⟩, ⟨s "2", s "Write summary"⟩]
      = .ambiguous [⟨s "1", s "Write report"⟩, ⟨s "2", s "Write summary"⟩] ∧
    (searchQueryFor (s "write") (s "Analytics Team Status")).completed = false :=
  ⟨((claim7_locate_outcomes (s "write") (s "Analytics Team Status")
        [⟨s "1", s "Write report"⟩, ⟨s "2", s "Write summary"⟩]
        (by decide) (by decide)).2.2.2 (by decide)).1,
   (claim7_locate_outcomes (s "write") (s "Analytics Team Status")
        [⟨s "1", s "Write report"⟩, ⟨s "2", s "Write summary"⟩]
        (by decide) (by decide)).1⟩

/-- C4, amended: when the cache is not fresh and the fetch raises, the
operation returns the last good cache when nonempty and the empty snapshot
otherwise, leaving the state untouched; but a fetch whose current-user
lookup reports no workspaces (a failure the code logs as an error) returns
the empty snapshot unconditionally, even when a nonempty last good cache
exists (`claim4_counterexample`). -/
theorem claim4_fetch_fallback (st : CacheState) (now : Nat)
    (hstale : cacheFresh st now = false) :
    (st.userCache ≠ [] → fetchWorkspaceUsers st now .failure = (st.userCache, st)) ∧
    (st.userCache = [] → fetchWorkspaceUsers st now .failure = ([], st)) ∧
    fetchWorkspaceUsers st now .noWorkspaces = ([], st) := by
  refine ⟨?_, ?_, ?_⟩
  · intro hne
    unfold fetchWorkspaceUsers
    rw [if_neg (by rw [hstale]; exact Bool.false_ne_true), if_pos hne]
  · intro hemp
    unfold fetchWorkspaceUsers
    rw [if_neg (by rw [hstale]; exact Bool.false_ne_true), if_neg (by rw [hemp]; simp)]
  · unfold fetchWorkspaceUsers
    rw [if_neg (by rw [hstale]; exact Bool.false_ne_true)]

/-- Witness for C4's theorem at a concrete stale state. -/
theorem claim4_fetch_fallback_witness :
    fetchWorkspaceUsers ⟨[(s "bob", s "111")], none⟩ 0 .failure
      = ([(s "bob", s "111")], ⟨[(s "bob", s "111")], none⟩) :=
  (claim4_fetch_fallback ⟨[(s "bob", s "111")], none⟩ 0 (by decide)).1 (by decide)

/-- C4, counterexample to the claim as stated: with a nonempty last good
cache and a stale timestamp, a fetch that ends in the no-workspaces error
path returns the empty snapshot instead of the last good one. -/
theorem claim4_counterexample :
    fetchWorkspaceUsers ⟨[(s "bob", s "111")], none⟩ 0 .noWorkspaces
      = ([], ⟨[(s "bob", s "111")], none⟩) ∧
    ([] : Dict) ≠ [(s "bob", s "111")] := by
  constructor
  · rfl
  · decide

/-- C6, amended: for every processed member with a nonempty (stripped) gid,
the rebuilt index maps each of the member's derived keys — the trimmed,
lower-cased display name (when nonempty), the trimmed, lower-cased email
(when nonempty), the trimmed gid to itself, and, exactly when the trimmed
name has at least 2 whitespace-separated parts, the first part and
`first part + " " + last part's initial` (lower-cased) — to the member's
gid; no other key is touched; and a later member's processing overwrites an
earlier member's bindings (the last conjunct: processing is a left fold, so
the last member's assignments are applied last).  The amendments forced by
`claim6_counterexample`: name and email are whitespace-trimmed before use
and contribute no key when empty, and a member whose gid is empty is
skipped entirely. -/
theorem claim6_alias_derivation (m : Dict) (u : User) :
    (∀ k ∈ aliasKeys u, dlookup (addUserAliases m u) k = some (pyStrip u.gid)) ∧
    (∀ k, k ∉ aliasKeys u → dlookup (addUserAliases m u) k = dlookup m k) ∧
    (pyStrip u.gid ≠ [] →
      (pyStrip u.name ≠ [] →
        dlookup (addUserAliases m u) (pyLower (pyStrip u.name)) = some (pyStrip u.gid)) ∧
      (pyStrip u.email ≠ [] →
        dlookup (addUserAliases m u) (pyLower (pyStrip u.email)) = some (pyStrip u.gid)) ∧
      dlookup (addUserAliases m u) (pyStrip u.gid) = some (pyStrip u.gid) ∧
      (pyStrip u.name ≠ [] → 2 ≤ (pySplit (pyStrip u.name)).length →
        dlookup (addUserAliases m u) (pyLower ((pySplit (pyStrip u.name)).headD []))
          = some (pyStrip u.gid) ∧
        dlookup (addUserAliases m u)
            (pyLower ((pySplit (pyStrip u.name)).headD [] ++ [' ']
              ++ ((pySplit (pyStrip u.name)).getLastD []).take 1))
          = some (pyStrip u.gid))) ∧
    (∀ us, buildUserCache (us ++ [u]) = addUserAliases (buildUserCache us) u) := by
  have hlk : ∀ k, dlookup (addUserAliases m u) k
      = if k ∈ aliasKeys u then some (pyStrip u.gid) else dlookup m k :=
    fun k => dlookup_dinsertAll (aliasKeys u) m (pyStrip u.gid) k
  refine ⟨?_, ?_, ?_, ?_⟩
  · intro k hk
    rw [hlk k, if_pos hk]
  · intro k hk
    rw [hlk k, if_neg hk]
  · intro hgid
    refine ⟨?_, ?_, ?_, ?_⟩
    · intro hname
      rw [hlk _, if_pos (by simp [aliasKeys, hgid, hname])]
    · intro hemail
      rw [hlk _, if_pos (by simp [aliasKeys, hgid, hemail])]
    · rw [hlk _, if_pos (by simp [aliasKeys, hgid])]
    · intro hname hparts
      constructor
      · rw [hlk _, if_pos (by simp [aliasKeys, hgid, hname, hparts])]
      · rw [hlk _, if_pos (by simp [aliasKeys, hgid, hname, hparts])]
  · intro us
    show (us ++ [u]).foldl addUserAliases [] = addUserAliases (us.foldl addUserAliases []) u
    rw [List.foldl_append]
    rfl

/-- Witness for C6's theorem at the member `Jane Doe / jane@x.com / 111`:
the short-form key `jane d` maps to `111`, and an unrelated key is
untouched. -/
theorem claim6_alias_derivation_witness :
    dlookup (addUserAliases [] ⟨s "111", s "Jane Doe", s "jane@x.com"⟩) (s "jane d")
      = some (s "111") ∧
    dlookup (addUserAliases [] ⟨s "111", s "Jane Doe", s "jane@x.com"⟩) (s "zzz")
      = dlookup [] (s "zzz") :=
  ⟨(claim6_alias_derivation [] ⟨s "111", s "Jane Doe", s "jane@x.com"⟩).1 (s "jane d") (by decide),
   (claim6_alias_derivation [] ⟨s "111", s "Jane Doe", s "jane@x.com"⟩).2.1 (s "zzz") (by decide)⟩

/-- C6, counterexample to the claim as stated: the claim says the index
maps every member's (lower-cased) email address; for the member
`Jane Doe` with an empty email the built index has no binding for the
empty key at all, although the member itself was processed. -/
theorem claim6_counterexample :
    dlookup (buildUserCache [⟨s "1", s "Jane Doe", s ""⟩]) (pyLower (s "")) = none ∧
    buildUserCache [⟨s "1", s "Jane Doe", s ""⟩] ≠ [] := by decide

/-- C3: the absolute formats are tried in exactly the source order
`%Y-%m-%d`, `%m/%d/%Y`, `%m-%d-%Y`, `%d/%m/%Y`, `%Y/%m/%d`, `%m/%d/%y`,
`%m-%d-%y`, the first successful parse winning; in particular
`13/02/2024` fails month-first and resolves via the day-first format to
`2024-02-13`, and `02/13/2024` resolves via month-first to `2024-02-13`. -/
theorem claim3_format_order :
    dateFormats = [DateFmt.ymd4dash, DateFmt.mdy4slash, DateFmt.mdy4dash, DateFmt.dmy4slash,
      DateFmt.ymd4slash, DateFmt.mdy2slash, DateFmt.mdy2dash] ∧
    (∀ f fs x d, tryFormat f x = some d → tryFormats (f :: fs) x = some d) ∧
    (∀ f fs x, tryFormat f x = none → tryFormats (f :: fs) x = tryFormats fs x) ∧
    (∀ t, parseDueDate t (s "13/02/2024") = s "2024-02-13") ∧
    tryFormat DateFmt.mdy4slash (s "13/02/2024") = none ∧
    tryFormat DateFmt.dmy4slash (s "13/02/2024") = some ⟨2024, 2, 13⟩ ∧
    (∀ t, parseDueDate t (s "02/13/2024") = s "2024-02-13") ∧
    tryFormat DateFmt.mdy4slash (s "02/13/2024") = some ⟨2024, 2, 13⟩ := by
  refine ⟨rfl, ?_, ?_, fun t => rfl, by decide, by decide, fun t => rfl, by decide⟩
  · intro f fs x d h
    unfold tryFormats
    rw [h]
  · intro f fs x h
    show (match tryFormat f x with | some d => some d | none => tryFormats fs x)
        = tryFormats fs x
    rw [h]

/-- Witness for C3's theorem: first-match-wins applied at the day-first
format on `13/02/2024`. -/
theorem claim3_format_order_witness :
    tryFormats [DateFmt.dmy4slash] (s "13/02/2024") = some ⟨2024, 2, 13⟩ :=
  claim3_format_order.2.1 DateFmt.dmy4slash [] (s "13/02/2024") ⟨2024, 2, 13⟩ (by decide)

/-- Equation for the today/now branch of the exception-aware normalizer. -/
theorem parseDueDateExc_today_now (today : Date) (due : Str)
    (h : pyLower due = s "today" ∨ pyLower due = s "now") :
    parseDueDateExc today due = some (formatDate today) := by
  have hne : due ≠ [] := by
    intro hd
    subst hd
    rcases h with h | h <;> exact absurd h (by decide)
  unfold parseDueDateExc
  rw [if_neg hne, if_pos h]

/-- Equation for the tomorrow branch of the exception-aware normalizer. -/
theorem parseDueDateExc_tomorrow (today : Date) (due : Str)
    (h : pyLower due = s "tomorrow") :
    parseDueDateExc today due = (addDaysChecked today 1).map formatDate := by
  have hne : due ≠ [] := by
    intro hd
    subst hd
    exact absurd h (by decide)
  have h1 : ¬(pyLower due = s "today" ∨ pyLower due = s "now") := by
    rw [h]
    decide
  unfold parseDueDateExc
  rw [if_neg hne, if_neg h1, if_pos h]

/-- Equation for the days branch of the exception-aware normalizer when the
integer parse succeeds. -/
theorem parseDueDateExc_days (today : Date) (due : Str) (n : Int)
    (hsuf : isSuffixLst (s "days") (pyLower due) = true)
    (hint : pyIntParse (pyStrip (removeAllDays (pyLower due))) = some n) :
    parseDueDateExc today due = (addDaysChecked today n).map formatDate := by
  have hne : due ≠ [] := by
    intro hd
    subst hd
    exact absurd hsuf (by decide)
  have h1 : ¬(pyLower due = s "today" ∨ pyLower due = s "now") := by
    rintro (h | h) <;> rw [h] at hsuf <;> exact absurd hsuf (by decide)
  have h2 : pyLower due ≠ s "tomorrow" := by
    intro h
    rw [h] at hsuf
    exact absurd hsuf (by decide)
  unfold parseDueDateExc
  rw [if_neg hne, if_neg h1, if_neg h2, if_pos hsuf, hint]

/-- Equation for the exception-aware normalizer on every remaining path:
no relative form applies (or the days integer parse fails), so the result
is the absolute-format stage, returned normally. -/
theorem parseDueDateExc_absolute (today : Date) (due : Str)
    (h1 : ¬(pyLower due = s "today" ∨ pyLower due = s "now"))
    (h2 : pyLower due ≠ s "tomorrow")
    (h3 : isSuffixLst (s "days") (pyLower due) = false ∨
      pyIntParse (pyStrip (removeAllDays (pyLower due))) = none) :
    parseDueDateExc today due = some (absoluteOr due) := by
  by_cases hne : due = []
  · subst hne
    rfl
  · unfold parseDueDateExc
    rw [if_neg hne, if_neg h1, if_neg h2]
    rcases h3 with hd | hd
    · rw [hd, if_neg Bool.false_ne_true]
    · by_cases hsuf : isSuffixLst (s "days") (pyLower due) = true
      · rw [if_pos hsuf, hd]
      · rw [if_neg hsuf]

/-- Equation for the today/now branch of the returning-path normalizer. -/
theorem parseDueDate_today_now (today : Date) (due : Str)
    (h : pyLower due = s "today" ∨ pyLower due = s "now") :
    parseDueDate today due = formatDate today := by
  have hne : due ≠ [] := by
    intro hd
    subst hd
    rcases h with h | h <;> exact absurd h (by decide)
  unfold parseDueDate
  rw [if_neg hne, if_pos h]

/-- Equation for the tomorrow branch of the returning-path normalizer. -/
theorem parseDueDate_tomorrow (today : Date) (due : Str)
    (h : pyLower due = s "tomorrow") :
    parseDueDate today due = formatDate (addDays today 1) := by
  have hne : due ≠ [] := by
    intro hd
    subst hd
    exact absurd h (by decide)
  have h1 : ¬(pyLower due = s "today" ∨ pyLower due = s "now") := by
    rw [h]
    decide
  unfold parseDueDate
  rw [if_neg hne, if_neg h1, if_pos h]

/-- Equation for the days branch of the returning-path normalizer when the
integer parse succeeds. -/
theorem parseDueDate_days (today : Date) (due : Str) (n : Int)
    (hsuf : isSuffixLst (s "days") (pyLower due) = true)
    (hint : pyIntParse (pyStrip (removeAllDays (pyLower due))) = some n) :
    parseDueDate today due = formatDate (addDays today n) := by
  have hne : due ≠ [] := by
    intro hd
    subst hd
    exact absurd hsuf (by decide)
  have h1 : ¬(pyLower due = s "today" ∨ pyLower due = s "now") := by
    rintro (h | h) <;> rw [h] at hsuf <;> exact absurd hsuf (by decide)
  have h2 : pyLower due ≠ s "tomorrow" := by
    intro h
    rw [h] at hsuf
    exact absurd hsuf (by decide)
  unfold parseDueDate
  rw [if_neg hne, if_neg h1, if_neg h2, if_pos hsuf, hint]

/-- Equation for the returning-path normalizer on every remaining path. -/
theorem parseDueDate_absolute (today : Date) (due : Str)
    (h1 : ¬(pyLower due = s "today" ∨ pyLower due = s "now"))
    (h2 : pyLower due ≠ s "tomorrow")
    (h3 : isSuffixLst (s "days") (pyLower due) = false ∨
      pyIntParse (pyStrip (removeAllDays (pyLower due))) = none) :
    parseDueDate today due = absoluteOr due := by
  by_cases hne : due = []
  · subst hne
    rfl
  · unfold parseDueDate
    rw [if_neg hne, if_neg h1, if_neg h2]
    rcases h3 with hd | hd
    · rw [hd, if_neg Bool.false_ne_true]
    · by_cases hsuf : isSuffixLst (s "days") (pyLower due) = true
      · rw [if_pos hsuf, hd]
      · rw [if_neg hsuf]

/-- A successful checked date addition computes the unchecked sum. -/
theorem addDaysChecked_some {d : Date} {n : Int} {r : Date}
    (h : addDaysChecked d n = some r) : r = addDays d n := by
  unfold addDaysChecked at h
  by_cases h1 : timedeltaDaysInRange n = true
  · rw [if_pos h1] at h
    by_cases h2 : dateYearInRange (addDays d n) = true
    · rw [if_pos h2] at h
      cases h
      rfl
    · rw [if_neg h2] at h
      exact Option.noConfusion h
  · rw [if_neg h1] at h
    exact Option.noConfusion h

/-- Wherever the exception-aware normalizer returns a value, the
returning-path normalizer computes that same value: the two models agree on
every input on which the source returns. -/
theorem parseDueDateExc_agrees (today : Date) (due : Str) (r : Str)
    (h : parseDueDateExc today due = some r) : parseDueDate today due = r := by
  by_cases hta : pyLower due = s "today" ∨ pyLower due = s "now"
  · rw [parseDueDateExc_today_now today due hta] at h
    cases h
    exact parseDueDate_today_now today due hta
  · by_cases hto : pyLower due = s "tomorrow"
    · rw [parseDueDateExc_tomorrow today due hto] at h
      rcases hc : addDaysChecked today 1 with _ | d'
      · rw [hc] at h
        exact Option.noConfusion h
      · rw [hc, Option.map_some'] at h
        cases h
        rw [parseDueDate_tomorrow today due hto, ← addDaysChecked_some hc]
    · rcases hint : pyIntParse (pyStrip (removeAllDays (pyLower due))) with _ | n
      · rw [parseDueDateExc_absolute today due hta hto (Or.inr hint)] at h
        cases h
        exact parseDueDate_absolute today due hta hto (Or.inr hint)
      · by_cases hsuf : isSuffixLst (s "days") (pyLower due) = true
        · rw [parseDueDateExc_days today due n hsuf hint] at h
          rcases hc : addDaysChecked today n with _ | d'
          · rw [hc] at h
            exact Option.noConfusion h
          · rw [hc, Option.map_some'] at h
            cases h
            rw [parseDueDate_days today due n hsuf hint, ← addDaysChecked_some hc]
        · have hsuf' : isSuffixLst (s "days") (pyLower due) = false := by
            rw [Bool.not_eq_true] at hsuf
            exact hsuf
          rw [parseDueDateExc_absolute today due hta hto (Or.inl hsuf')] at h
          cases h
          exact parseDueDate_absolute today due hta hto (Or.inl hsuf')

/-- C8, amended: the normalizer maps, case-insensitively, `today`/`now` to
the current date and `tomorrow` to the current date plus one day, and a
`days`-suffixed expression to the current date plus `N` days (negative `N`
allowed), where `N` is obtained by deleting every occurrence of `"days"`
from the lowered expression, stripping whitespace, and parsing the
remainder with Python `int()` (PEP 515 underscores included) — not by
parsing the prefix before the final `"days"`; when that parse fails the
expression falls through to absolute-format parsing, and an expression
matching nothing is returned unchanged.  It does NOT never raise: the date
additions are the checked `addDaysChecked`, and the normalizer raises
(returns `none`) exactly when a date addition overflows — `|N|` beyond the
`timedelta` bound or a result outside years 1-9999, including `tomorrow`
on 9999-12-31 (clause 6); on every input on which it returns, the
returning-path model `parseDueDate` agrees (clause 7).  Both amendments
(`days` deletion, raising) are forced by `claim8_counterexample`. -/
theorem claim8_relative_dates (today : Date) (due : Str) :
    (pyLower due = s "today" ∨ pyLower due = s "now" →
      parseDueDateExc today due = some (formatDate today)) ∧
    (pyLower due = s "tomorrow" →
      parseDueDateExc today due = (addDaysChecked today 1).map formatDate) ∧
    (isSuffixLst (s "days") (pyLower due) = true →
      ∀ n, pyIntParse (pyStrip (removeAllDays (pyLower due))) = some n →
        parseDueDateExc today due = (addDaysChecked today n).map formatDate) ∧
    (isSuffixLst (s "days") (pyLower due) = true →
      pyIntParse (pyStrip (removeAllDays (pyLower due))) = none →
      parseDueDateExc today due = some (absoluteOr due)) ∧
    (pyLower due ≠ s "today" → pyLower due ≠ s "now" → pyLower due ≠ s "tomorrow" →
      (isSuffixLst (s "days") (pyLower due) = false ∨
        pyIntParse (pyStrip (removeAllDays (pyLower due))) = none) →
      tryFormats dateFormats due = none → parseDueDateExc today due = some due) ∧
    (parseDueDateExc today due = none ↔
      (pyLower due = s "tomorrow" ∧ addDaysChecked today 1 = none) ∨
      (isSuffixLst (s "days") (pyLower due) = true ∧
        ∃ n, pyIntParse (pyStrip (removeAllDays (pyLower due))) = some n ∧
          addDaysChecked today n = none)) ∧
    (∀ r, parseDueDateExc today due = some r → parseDueDate today due = r) := by
  refine ⟨parseDueDateExc_today_now today due, parseDueDateExc_tomorrow today due,
    fun hsuf n hint => parseDueDateExc_days today due n hsuf hint,
    fun hsuf hint => parseDueDateExc_absolute today due ?_ ?_ (Or.inr hint),
    ?_, ⟨?_, ?_⟩, fun r => parseDueDateExc_agrees today due r⟩
  · rintro (h | h) <;> rw [h] at hsuf <;> exact absurd hsuf (by decide)
  · intro h
    rw [h] at hsuf
    exact absurd hsuf (by decide)
  · intro hta hno hto hdays habs
    rw [parseDueDateExc_absolute today due (fun hor => Or.elim hor hta hno) hto hdays]
    unfold absoluteOr
    rw [habs]
  · intro h
    by_cases hta : pyLower due = s "today" ∨ pyLower due = s "now"
    · rw [parseDueDateExc_today_now today due hta] at h
      exact Option.noConfusion h
    · by_cases hto : pyLower due = s "tomorrow"
      · rw [parseDueDateExc_tomorrow today due hto] at h
        rcases hc : addDaysChecked today 1 with _ | d'
        · exact Or.inl ⟨hto, rfl⟩
        · rw [hc, Option.map_some'] at h
          exact Option.noConfusion h
      · rcases hint : pyIntParse (pyStrip (removeAllDays (pyLower due))) with _ | n
        · rw [parseDueDateExc_absolute today due hta hto (Or.inr hint)] at h
          exact Option.noConfusion h
        · by_cases hsuf : isSuffixLst (s "days") (pyLower due) = true
          · rw [parseDueDateExc_days today due n hsuf hint] at h
            rcases hc : addDaysChecked today n with _ | d'
            · exact Or.inr ⟨hsuf, n, rfl, hc⟩
            · rw [hc, Option.map_some'] at h
              exact Option.noConfusion h
          · have hsuf' : isSuffixLst (s "days") (pyLower due) = false := by
              rw [Bool.not_eq_true] at hsuf
              exact hsuf
            rw [parseDueDateExc_absolute today due hta hto (Or.inl hsuf')] at h
            exact Option.noConfusion h
  · rintro (⟨hto, hc⟩ | ⟨hsuf, n, hint, hc⟩)
    · rw [parseDueDateExc_tomorrow today due hto, hc]
      rfl
    · rw [parseDueDateExc_days today due n hsuf hint, hc]
      rfl

/-- Witness for C8's theorem, exercising each clause at concrete dates:
the relative forms, the PEP 515 underscore integer, the fall-through, the
unchanged path, the overflow raise on the last representable day, and the
agreement of the two models. -/
theorem claim8_relative_dates_witness :
    parseDueDateExc ⟨2024, 1, 1⟩ (s "Today") = some (formatDate ⟨2024, 1, 1⟩) ∧
    parseDueDateExc ⟨2024, 1, 1⟩ (s "Tomorrow")
      = (addDaysChecked ⟨2024, 1, 1⟩ 1).map formatDate ∧
    parseDueDateExc ⟨2024, 1, 1⟩ (s "-3 days")
      = (addDaysChecked ⟨2024, 1, 1⟩ (-3)).map formatDate ∧
    parseDueDateExc ⟨2024, 1, 1⟩ (s "1_0 days")
      = (addDaysChecked ⟨2024, 1, 1⟩ 10).map formatDate ∧
    parseDueDateExc ⟨2024, 1, 1⟩ (s "xdays") = some (absoluteOr (s "xdays")) ∧
    parseDueDateExc ⟨2024, 1, 1⟩ (s "nonsense") = some (s "nonsense") ∧
    parseDueDateExc ⟨9999, 12, 31⟩ (s "tomorrow") = none ∧
    parseDueDate ⟨2024, 1, 1⟩ (s "-3 days") = s "2023-12-29" :=
  ⟨(claim8_relative_dates ⟨2024, 1, 1⟩ (s "Today")).1 (Or.inl (by decide)),
   (claim8_relative_dates ⟨2024, 1, 1⟩ (s "Tomorrow")).2.1 (by decide),
   (claim8_relative_dates ⟨2024, 1, 1⟩ (s "-3 days")).2.2.1 (by decide) (-3) (by decide),
   (claim8_relative_dates ⟨2024, 1, 1⟩ (s "1_0 days")).2.2.1 (by decide) 10 (by decide),
   (claim8_relative_dates ⟨2024, 1, 1⟩ (s "xdays")).2.2.2.1 (by decide) (by decide),
   (claim8_relative_dates ⟨2024, 1, 1⟩ (s "nonsense")).2.2.2.2.1 (by decide) (by decide)
     (by decide) (Or.inl (by decide)) (by decide),
   (claim8_relative_dates ⟨9999, 12, 31⟩ (s "tomorrow")).2.2.2.2.2.1.mpr
     (Or.inl ⟨by decide, by decide⟩),
   (claim8_relative_dates ⟨2024, 1, 1⟩ (s "-3 days")).2.2.2.2.2.2
     (s "2023-12-29") (by decide)⟩

/-- C8, counterexample to the claim as stated, on two counts.  Never
raises: `1000000000days` ends in `days` with the integer prefix
`1000000000`, so the claim maps it to the current date plus that many days;
the code instead raises an uncaught `OverflowError` (the `timedelta` bound
is 999999999, and `except ValueError` does not catch `OverflowError`) —
the model's `none`.  Prefix parsing: `2days3days` has the non-integer
prefix `2days3`, so the claim requires fall-through to absolute parsing
(and, none matching, the input back unchanged); the code deletes both
occurrences of `days`, parses `23`, and returns the current date plus 23
days. -/
theorem claim8_counterexample :
    parseDueDateExc ⟨2024, 1, 1⟩ (s "1000000000days") = none ∧
    isSuffixLst (s "days") (pyLower (s "1000000000days")) = true ∧
    pyIntParse (s "1000000000") = some 1000000000 ∧
    parseDueDateExc ⟨2024, 1, 1⟩ (s "2days3days") = some (s "2024-01-24") ∧
    pyIntParse (s "2days3") = none ∧
    tryFormats dateFormats (s "2days3days") = none ∧
    s "2024-01-24" ≠ s "2days3days" := by decide
